import Mathlib

/-!
Verification of the gameshopui core against its specification.

This file gives a shallow embedding of the core of `src/table.rs` and
`src/api.rs`: the typed column-value model (`ColumnValue` with its
conversions from untyped JSON values and from text), the schema graph
builder (`TableNode::into_trees` / `construct_leaves`), the hierarchy
flattener (`TableNode::pop_outer_leaves`), the aggregate `TableDefinition`
with its lookup, and the `Comp`/`Filter` wire encoding.

Modelling conventions:
- `f64` is modelled by `F64`: either `nan` or a rational number.  The only
  floating-point facts the development relies on are the IEEE comparison
  rules the code uses (`NaN` compares unequal to everything, ordinary
  numbers compare by value), which the model reproduces exactly.
- `serde_json::Value` / `Number` are modelled by `JValue` / `JNumber`
  mirroring serde_json's internal representation (`PosInt`/`NegInt`/`Float`)
  and its accessors `as_f64` (total on every number), `as_i64`, `as_u64`.
- Rust's destructive `Vec::extract_if` is modelled by the pair of
  `List.filter` with the predicate and its negation: the extracted elements
  in order, and the surviving elements in order.
- The recursive worker behind `construct_leaves`/`into_trees` is made
  structurally recursive through a fuel parameter; the public wrappers pass
  fuel strictly larger than the measure `pending.length + 2 * tables.length`
  that bounds the recursion depth, which the sufficiency lemmas prove is
  enough for the fuel case never to be hit.
-/

/-! ## Column types and values (`src/table.rs`) -/

inductive ColumnType where
  | Bool
  | Int
  | Float
  | String
deriving DecidableEq, Repr

/-- Model of Rust `f64` restricted to what the code observes: `nan`, or an
ordinary number represented exactly as a rational. -/
inductive F64 where
  | nan
  | num (q : ℚ)
deriving DecidableEq, Repr

/-- IEEE-754 equality as used by Rust `==` on `f64`: `nan` is unequal to
everything (itself included); ordinary numbers compare by value. -/
def F64.beq : F64 → F64 → Bool
  | .nan, _ => false
  | .num _, .nan => false
  | .num a, .num b => decide (a = b)

inductive ColumnValue where
  | Bool (b : Bool)
  | Int (i : ℤ)
  | Float (x : F64)
  | String (s : String)
deriving DecidableEq, Repr

/-- `impl PartialEq for ColumnValue`: equal only within the same variant,
the `Float` case delegating to `f64` equality. -/
def columnValueBeq : ColumnValue → ColumnValue → Bool
  | .Bool a, .Bool b => a == b
  | .Int a, .Int b => a == b
  | .Float a, .Float b => F64.beq a b
  | .String a, .String b => a == b
  | _, _ => false

def columnValueTy : ColumnValue → ColumnType
  | .Bool _ => .Bool
  | .Int _ => .Int
  | .Float _ => .Float
  | .String _ => .String

/-! ## Untyped JSON values (model of `serde_json`) -/

/-- Model of `serde_json::Number`: an unsigned 64-bit integer, a negative
signed 64-bit integer, or a float. -/
inductive JNumber where
  | posInt (n : ℕ)
  | negInt (n : ℤ)
  | float (x : F64)
deriving DecidableEq, Repr

inductive JValue where
  | null
  | bool (b : Bool)
  | number (n : JNumber)
  | string (s : String)
  | array (xs : List JValue)
  | object (fields : List (String × JValue))

/-- `serde_json::Number::as_f64`: defined (`Some`) on every number — integer
payloads are converted to floating point unconditionally. -/
def JNumber.asF64 : JNumber → Option F64
  | .posInt n => some (.num n)
  | .negInt n => some (.num n)
  | .float x => some x

/-- `serde_json::Number::as_i64`: positive payloads only when within the
signed range; float payloads never. -/
def JNumber.asI64 : JNumber → Option ℤ
  | .posInt n => if n ≤ 2 ^ 63 - 1 then some n else none
  | .negInt n => some n
  | .float _ => none

/-- `serde_json::Number::as_u64`. -/
def JNumber.asU64 : JNumber → Option ℕ
  | .posInt n => some n
  | .negInt _ => none
  | .float _ => none

/-- Rust `as i64` on a `u64` value: wrap around `2^64`. -/
def u64AsI64 (n : ℕ) : ℤ :=
  if n < 2 ^ 63 then (n : ℤ) else (n : ℤ) - 2 ^ 64

/-- `ColumnValue::try_from_value`: convert an untyped JSON value into an
optional typed value, failing on arrays and objects.  The numeric branch
tries `as_f64` first, then `as_i64`, then an `as_u64` cast. -/
def try_from_value : JValue → Except Unit (Option ColumnValue)
  | .null => .ok none
  | .bool b => .ok (some (.Bool b))
  | .number n =>
    .ok (some (match n.asF64 with
      | some x => .Float x
      | none =>
        match n.asI64 with
        | some i => .Int i
        | none => .Int (u64AsI64 (n.asU64.getD 0))))
  | .string s => .ok (some (.String s))
  | .array _ => .error ()
  | .object _ => .error ()

/-! ## Text parsing (model of Rust `str::parse`) -/

/-- Modelled from the spec: standard boolean literal parsing
(Rust `str::parse::<bool>` accepts exactly the literals true and false). -/
def parseBool (s : String) : Option Bool :=
  if s = "true" then some true
  else if s = "false" then some false
  else none

def digitsToNat : List Char → Option ℕ
  | [] => some 0
  | c :: cs =>
    if c.isDigit then
      (digitsToNat cs).map (fun rest => (c.toNat - '0'.toNat) * 10 ^ cs.length + rest)
    else none

/-- Modelled from the spec: standard integer literal parsing
(Rust `str::parse::<i64>`): an optional sign, one or more decimal digits,
and the value must fit in a signed 64-bit integer. -/
def parseI64 (s : String) : Option ℤ :=
  let signed : Option ℤ :=
    match s.toList with
    | [] => none
    | c :: cs =>
      if c = '-' then
        if cs = [] then none else (digitsToNat cs).map (fun n => -(n : ℤ))
      else if c = '+' then
        if cs = [] then none else (digitsToNat cs).map (fun n => (n : ℤ))
      else (digitsToNat (c :: cs)).map (fun n => (n : ℤ))
  signed.bind (fun v =>
    if -(2 ^ 63) ≤ v ∧ v ≤ 2 ^ 63 - 1 then some v else none)

/-- Modelled from the spec: floating-point literal parsing
(Rust `str::parse::<f64>`), restricted to plain decimal literals — an
optional sign, one or more integer digits, an optional fractional part —
which covers every behaviour the specification claims. -/
def parseF64 (s : String) : Option F64 :=
  let core : List Char → Option ℚ := fun cs =>
    match cs.splitOn '.' with
    | [intPart] =>
      if intPart = [] then none
      else (digitsToNat intPart).map (fun n => (n : ℚ))
    | [intPart, fracPart] =>
      if intPart = [] ∨ fracPart = [] then none
      else
        (digitsToNat intPart).bind (fun n =>
          (digitsToNat fracPart).map (fun m =>
            (n : ℚ) + (m : ℚ) / (10 ^ fracPart.length : ℚ)))
    | _ => none
  match s.toList with
  | [] => none
  | c :: cs =>
    if c = '-' then (core cs).map (fun q => F64.num (-q))
    else if c = '+' then (core cs).map F64.num
    else (core (c :: cs)).map F64.num

inductive ColumnParseError where
  | ValueError
  | Empty
  | ParseError
deriving DecidableEq, Repr

/-! ## Table schemas -/

structure TableColumnForeignKey where
  table : String
  column : String
deriving DecidableEq, Repr

structure TableColumn where
  name : String
  ty : ColumnType
  optional : Bool
  primary_key : Bool
  foreign_keys : List TableColumnForeignKey
  mapper : Option String
deriving DecidableEq, Repr

structure Table where
  name : String
  table : String
  polymorphic : Option String
  columns : List TableColumn
deriving DecidableEq, Repr

/-- `ColumnValue::try_from_str`: parse user text against a column's declared
type.  Empty text: `None` if the column is optional, the empty string for a
non-optional `String` column, error kind `Empty` otherwise.  Non-empty text
is parsed per declared type, a failure giving kind `ParseError`. -/
def try_from_str (column : TableColumn) (value : String) :
    Except ColumnParseError (Option ColumnValue) :=
  if value = "" then
    if column.optional then .ok none
    else if column.ty = ColumnType.String then .ok (some (.String ""))
    else .error .Empty
  else
    match column.ty with
    | .Bool =>
      match parseBool value with
      | some b => .ok (some (.Bool b))
      | none => .error .ParseError
    | .Int =>
      match parseI64 value with
      | some i => .ok (some (.Int i))
      | none => .error .ParseError
    | .Float =>
      match parseF64 value with
      | some x => .ok (some (.Float x))
      | none => .error .ParseError
    | .String => .ok (some (.String value))

/-! ## Schema graph builder and hierarchy flattener -/

/-- The predicate `TableNode::into_trees` extracts base tables with: the
first primary-key column exists and its foreign-key list is empty (a table
with no primary-key column is NOT extracted, by `map_or(false, ..)`). -/
def rootPred (t : Table) : Bool :=
  match t.columns.find? (fun c => c.primary_key) with
  | some c => c.foreign_keys.isEmpty
  | none => false

/-- The predicate `TableNode::construct_leaves` extracts children with:
the first primary-key column exists and some foreign key of it references
`node`'s table identifier. -/
def childPred (node : Table) (t : Table) : Bool :=
  match t.columns.find? (fun c => c.primary_key) with
  | some c => c.foreign_keys.any (fun k => k.table == node.table)
  | none => false

/-- Following the spec's words (root classification), for comparison with
the code's `rootPred`: a table is a root iff it either has no primary-key
column, or its first primary-key column has an empty foreign-key list. -/
def specRoot (t : Table) : Bool :=
  match t.columns.find? (fun c => c.primary_key) with
  | some c => c.foreign_keys.isEmpty
  | none => true

mutual
/-- `struct TableNode`: a table together with its child nodes. -/
inductive TableNode where
  | mk (node : Table) (leaves : TableForest)
/-- The `Vec<TableNode>` of children, as its own inductive so that all tree
operations are structurally recursive. -/
inductive TableForest where
  | nil
  | cons (head : TableNode) (tail : TableForest)
end

def TableNode.node : TableNode → Table
  | .mk n _ => n

def TableNode.leaves : TableNode → TableForest
  | .mk _ ls => ls

def TableForest.toList : TableForest → List TableNode
  | .nil => []
  | .cons h t => h :: t.toList

def TableForest.ofList : List TableNode → TableForest
  | [] => .nil
  | h :: t => .cons h (TableForest.ofList t)

mutual
/-- `TableNode::pop_outer_leaves`: `None` for a node without children;
otherwise the deepest leaves of all branches.  The helper returns the pair
accumulated by the loop body: the leaves popped from non-terminal children
(`child_leaves`) and the terminal children themselves (`empty_leaves`),
which the code concatenates in that order. -/
def popOuterLeaves : TableNode → Option (List Table)
  | .mk _ .nil => none
  | .mk _ (.cons h t) =>
    some ((popForestAux (.cons h t)).1 ++ (popForestAux (.cons h t)).2)

def popForestAux : TableForest → (List Table × List Table)
  | .nil => ([], [])
  | .cons h t =>
    let r := popForestAux t
    match popOuterLeaves h with
    | some ls => (ls ++ r.1, r.2)
    | none => (r.1, h.node :: r.2)
end

mutual
/-- All tables stored in a tree (the node and, recursively, its leaves). -/
def allNodes : TableNode → List Table
  | .mk n ls => n :: forestAllNodes ls

def forestAllNodes : TableForest → List Table
  | .nil => []
  | .cons h t => allNodes h ++ forestAllNodes t
end

mutual
/-- The deepest descendants of a tree: the node itself when it is terminal,
else the terminal tables of all its branches. -/
def terminalTables : TableNode → List Table
  | .mk n .nil => [n]
  | .mk _ (.cons h t) => forestTerminals (.cons h t)

def forestTerminals : TableForest → List Table
  | .nil => []
  | .cons h t => terminalTables h ++ forestTerminals t
end

/-- Fuelled worker for `TableNode::construct_leaves` / `into_trees`: builds
the nodes for the `pending` tables in order, each extracting its children
from the shared working collection (`extract_if` modelled as the
filter/negated-filter pair) before its later siblings run, and returns the
forest together with the final working collection. -/
def clAuxF : ℕ → List Table → List Table → (TableForest × List Table)
  | 0, _, tables => (.nil, tables)
  | _ + 1, [], tables => (.nil, tables)
  | fuel + 1, t :: ts, tables =>
    let ex := tables.filter (childPred t)
    let rest := tables.filter (fun x => !childPred t x)
    let r1 := clAuxF fuel ex rest
    let r2 := clAuxF fuel ts r1.2
    (.cons (.mk t r1.1) r2.1, r2.2)

/-- Fuel measure bounding the recursion depth of `clAuxF`. -/
def clMeasure (pending tables : List Table) : ℕ :=
  pending.length + 2 * tables.length

/-- `TableNode::construct_leaves`. -/
def construct_leaves (node : Table) (tables : List Table) :
    (TableForest × List Table) :=
  let ex := tables.filter (childPred node)
  let rest := tables.filter (fun x => !childPred node x)
  clAuxF (clMeasure ex rest + 1) ex rest

/-- `TableNode::into_trees`: extract the base tables, construct one tree
per base against the shrinking remainder, and return the trees together
with the leftover tables. -/
def into_trees (tables : List Table) : (TableForest × List Table) :=
  let bases := tables.filter rootPred
  let rest := tables.filter (fun t => !rootPred t)
  clAuxF (clMeasure bases rest + 1) bases rest

/-- `enum TableDefinition`. -/
inductive TableDefinition where
  | Single (table : Table)
  | Family (base : Table) (leaves : List Table)
deriving DecidableEq, Repr

/-- The body of the closure in `TableDefinition::from_vec`: flatten one
tree via `pop_outer_leaves`. -/
def flattenNode (t : TableNode) : TableDefinition :=
  match popOuterLeaves t with
  | some leaves => .Family t.node leaves
  | none => .Single t.node

/-- `TableDefinition::from_vec`: build the trees (dropping the leftover
tables of `into_trees`) and flatten each one. -/
def from_vec (tables : List Table) : List TableDefinition :=
  ((into_trees tables).1.toList).map flattenNode

/-- `TableDefinition::get_base`. -/
def get_base : TableDefinition → Table
  | .Single t => t
  | .Family b _ => b

/-- `TableDefinition::get_leaves`. -/
def get_leaves : TableDefinition → Option (List Table)
  | .Single _ => none
  | .Family _ ls => some ls

/-- `TableDefinition::get`: the base if its identifier matches, else the
first leaf whose identifier matches. -/
def TableDefinition.get (d : TableDefinition) (table_name : String) :
    Option Table :=
  let base := get_base d
  if base.table == table_name then some base
  else (get_leaves d).bind (fun leaves =>
    leaves.find? (fun t => t.table == table_name))

/-! ## Comparison / Filter wire encoding (`src/api.rs`) -/

/-- `enum Comp<T>`. -/
inductive Comp (T : Type) where
  | Le (v : T)
  | Ge (v : T)
  | Leq (v : T)
  | Geq (v : T)
  | Eq (v : T)
  | Neq (v : T)
  | In (vs : List T)
  | Nin (vs : List T)
  | Between (min max : T)

/-- `Comp::operator`: the fixed operator token of each comparison. -/
def Comp.operator {T : Type} : Comp T → String
  | .Le _ => "<"
  | .Ge _ => ">"
  | .Leq _ => "<="
  | .Geq _ => ">="
  | .Eq _ => "=="
  | .Neq _ => "!="
  | .In _ => "in"
  | .Nin _ => "not_in"
  | .Between _ _ => "range"

/-- `serde_json::Number::from(i64)`: non-negative values are stored as the
unsigned payload, negative ones as the signed payload. -/
def JNumber.fromI64 (i : ℤ) : JNumber :=
  if 0 ≤ i then .posInt i.toNat else .negInt i

/-- `serde_json::Number::from_f64`: `None` exactly on non-finite input
(in this model, `nan`). -/
def JNumber.fromF64 : F64 → Option JNumber
  | .nan => none
  | .num q => some (.float (.num q))

/-- `impl From<ColumnValue> for Value`.  The `Float` arm unwraps
`Number::from_f64`, which panics on a non-finite float; the panic is
modelled as `none`. -/
def columnValueToJson : ColumnValue → Option JValue
  | .Bool b => some (.bool b)
  | .Int i => some (.number (JNumber.fromI64 i))
  | .Float x => (JNumber.fromF64 x).map .number
  | .String s => some (.string s)

/-- `impl Serialize for Comp<ColumnValue>`: the two-element array of the
operator token and the operand encoding (a single value for the unary
comparisons, an array for `In`/`Nin`, a two-element array for `Between`). -/
def serializeComp (c : Comp ColumnValue) : Option JValue :=
  let operand : Option JValue :=
    match c with
    | .Le v => columnValueToJson v
    | .Ge v => columnValueToJson v
    | .Leq v => columnValueToJson v
    | .Geq v => columnValueToJson v
    | .Eq v => columnValueToJson v
    | .Neq v => columnValueToJson v
    | .In vs => (vs.mapM columnValueToJson).map .array
    | .Nin vs => (vs.mapM columnValueToJson).map .array
    | .Between a b =>
      (columnValueToJson a).bind (fun ja =>
        (columnValueToJson b).map (fun jb => .array [ja, jb]))
  operand.map (fun v => .array [.string c.operator, v])

/-- `struct Filter(HashMap<String, Comp<ColumnValue>>)` (named `ApiFilter`
here because `Filter` is taken by Mathlib), the hash map modelled as an
association list with unique keys (iteration order of the Rust map is
unspecified; the claims only exercise single-key filters). -/
def ApiFilter : Type := List (String × Comp ColumnValue)

/-- `Filter::new`. -/
def ApiFilter.new : ApiFilter := []

/-- `HashMap::insert`: set or overwrite the comparison for a column. -/
def ApiFilter.insert (f : ApiFilter) (column : String) (comp : Comp ColumnValue) :
    ApiFilter :=
  (column, comp) :: f.filter (fun p => p.1 ≠ column)

/-- Serialization of a `Filter`: the object mapping each column name to its
encoded comparison. -/
def serializeFilter (f : ApiFilter) : Option JValue :=
  (f.mapM (fun p => (serializeComp p.2).map (fun j => (p.1, j)))).map .object

/-! ## Concrete schemas used by counterexamples and witnesses -/

/-- An `Int` primary-key column with the given foreign keys. -/
def pkCol (fks : List TableColumnForeignKey) : TableColumn :=
  ⟨"id", .Int, false, true, fks, none⟩

/-- A root table: primary key with no foreign keys. -/
def rootT : Table := ⟨"Root", "root", none, [pkCol []]⟩

/-- A table whose primary key references `rootT`. -/
def midT : Table := ⟨"Mid", "mid", none, [pkCol [⟨"root", "id"⟩]]⟩

/-- A table whose primary key references `midT`. -/
def leafT : Table := ⟨"Leaf", "leaf", none, [pkCol [⟨"mid", "id"⟩]]⟩

/-- A second direct child of `rootT`. -/
def sibT : Table := ⟨"Sib", "sib", none, [pkCol [⟨"root", "id"⟩]]⟩

/-- A table with no primary-key column at all. -/
def noPkT : Table := ⟨"NoPk", "no_pk", none, [⟨"x", .Int, false, false, [], none⟩]⟩

/-- A table whose primary key references a table that does not exist. -/
def orphanT : Table := ⟨"Orphan", "orphan", none, [pkCol [⟨"missing", "id"⟩]]⟩

/-- The chain tree root→mid→leaf, as `into_trees` builds it from
`[rootT, midT, leafT]`. -/
def chainNode : TableNode :=
  .mk rootT (.cons (.mk midT (.cons (.mk leafT .nil) .nil)) .nil)

/-- The parse of non-empty text against a declared column type fails (a
`String` column's parse never fails). -/
def parseFailsAt (ty : ColumnType) (s : String) : Prop :=
  match ty with
  | .Bool => parseBool s = none
  | .Int => parseI64 s = none
  | .Float => parseF64 s = none
  | .String => False

/-- A required (non-optional) `String` column. -/
def reqStrCol : TableColumn := ⟨"c", .String, false, false, [], none⟩

/-- An optional `String` column. -/
def optStrCol : TableColumn := ⟨"c", .String, true, false, [], none⟩

theorem clAuxF_len : ∀ (fuel : ℕ) (p tables : List Table),
    ((clAuxF fuel p tables).2).length ≤ tables.length := by
  intro fuel
  induction fuel with
  | zero => intro p tables; simp [clAuxF]
  | succ n ih =>
    intro p tables
    cases p with
    | nil => simp [clAuxF]
    | cons t ts =>
      simp only [clAuxF]
      exact le_trans (ih ts _) (le_trans (ih _ _) (List.length_filter_le _ _))

theorem clAuxF_roots : ∀ (fuel : ℕ) (p tables : List Table),
    clMeasure p tables < fuel →
    (((clAuxF fuel p tables).1.toList).map TableNode.node) = p := by
  intro fuel
  induction fuel with
  | zero => intro p tables h; exact absurd h (by omega)
  | succ n ih =>
    intro p tables h
    cases p with
    | nil => simp [clAuxF, TableForest.toList]
    | cons t ts =>
      simp only [clAuxF, TableForest.toList, List.map_cons, TableNode.node]
      have hrest : (tables.filter (fun x => !childPred t x)).length ≤ tables.length :=
        List.length_filter_le _ _
      have h1 : ((clAuxF n (tables.filter (childPred t))
          (tables.filter (fun x => !childPred t x))).2).length ≤ tables.length :=
        le_trans (clAuxF_len n _ _) hrest
      have h2 : clMeasure ts ((clAuxF n (tables.filter (childPred t))
          (tables.filter (fun x => !childPred t x))).2) < n := by
        simp only [clMeasure, List.length_cons] at h ⊢
        omega
      rw [ih ts _ h2]

theorem filter_partition_multiset (q : Table → Bool) (l : List Table) :
    ((l.filter q : List Table) : Multiset Table) + (l.filter (fun x => !q x) : List Table) = (l : Multiset Table) := by
  rw [Multiset.coe_add, Multiset.coe_eq_coe]
  exact List.filter_append_perm q l

theorem filter_partition_length (q : Table → Bool) (l : List Table) :
    (l.filter q).length + (l.filter (fun x => !q x)).length = l.length := by
  have h := congrArg Multiset.card (filter_partition_multiset q l)
  simpa using h

theorem popForestAux_cons (h : TableNode) (t : TableForest) :
    popForestAux (.cons h t) =
      match popOuterLeaves h with
      | some ls => (ls ++ (popForestAux t).1, (popForestAux t).2)
      | none => ((popForestAux t).1, h.node :: (popForestAux t).2) := rfl

theorem popOuterLeaves_mk_nil (n : Table) :
    popOuterLeaves (.mk n .nil) = none := rfl

theorem popOuterLeaves_mk_cons (n : Table) (h : TableNode) (t : TableForest) :
    popOuterLeaves (.mk n (.cons h t)) =
      some ((popForestAux (.cons h t)).1 ++ (popForestAux (.cons h t)).2) := rfl

theorem terminalTables_mk_nil (n : Table) :
    terminalTables (.mk n .nil) = [n] := rfl

theorem terminalTables_mk_cons (n : Table) (h : TableNode) (t : TableForest) :
    terminalTables (.mk n (.cons h t)) = forestTerminals (.cons h t) := rfl

theorem popForestAux_cons_none (h : TableNode) (t : TableForest)
    (hp : popOuterLeaves h = none) :
    popForestAux (.cons h t) = ((popForestAux t).1, h.node :: (popForestAux t).2) := by
  cases h with
  | mk n f =>
    cases f with
    | nil => rfl
    | cons a b => rw [popOuterLeaves_mk_cons] at hp; exact absurd hp (by simp)

theorem popForestAux_cons_some (h : TableNode) (t : TableForest) (ls : List Table)
    (hp : popOuterLeaves h = some ls) :
    popForestAux (.cons h t) = (ls ++ (popForestAux t).1, (popForestAux t).2) := by
  cases h with
  | mk n f =>
    cases f with
    | nil => rw [popOuterLeaves_mk_nil] at hp; exact absurd hp (by simp)
    | cons a b =>
      rw [popOuterLeaves_mk_cons] at hp
      have hls := (Option.some_inj.mp hp).symm
      subst hls
      rfl

theorem msum_shuffle (t : Table) (F1 R1 F2 R2 X Y T S : Multiset Table)
    (e1 : F1 + R1 = X + Y) (e2 : F2 + R2 = S + R1) (e3 : X + Y = T) :
    {t} + (F1 + F2) + R2 = {t} + S + T := by
  have key : F1 + (F2 + R2) = S + T := by
    rw [e2, ← e3, ← e1]
    abel
  calc {t} + (F1 + F2) + R2 = {t} + (F1 + (F2 + R2)) := by abel
    _ = {t} + (S + T) := by rw [key]
    _ = {t} + S + T := by abel

theorem clAuxF_multiset : ∀ (fuel : ℕ) (p tables : List Table),
    clMeasure p tables < fuel →
    ((forestAllNodes (clAuxF fuel p tables).1 : List Table) : Multiset Table)
      + ((clAuxF fuel p tables).2 : Multiset Table)
      = (p : Multiset Table) + (tables : Multiset Table) := by
  intro fuel
  induction fuel with
  | zero => intro p tables h; exact absurd h (by omega)
  | succ n ih =>
    intro p tables h
    cases p with
    | nil => simp [clAuxF, forestAllNodes]
    | cons t ts =>
      have hpart := filter_partition_length (childPred t) tables
      have hlen := clAuxF_len n (tables.filter (childPred t))
        (tables.filter (fun x => !childPred t x))
      have hm1 : clMeasure (tables.filter (childPred t))
          (tables.filter (fun x => !childPred t x)) < n := by
        simp only [clMeasure, List.length_cons] at h ⊢
        omega
      have hm2 : clMeasure ts ((clAuxF n (tables.filter (childPred t))
          (tables.filter (fun x => !childPred t x))).2) < n := by
        simp only [clMeasure, List.length_cons] at h ⊢
        omega
      have e1 := ih _ _ hm1
      have e2 := ih _ _ hm2
      have e3 := filter_partition_multiset (childPred t) tables
      simp only [clAuxF, forestAllNodes, allNodes]
      simp only [← Multiset.cons_coe, ← Multiset.coe_add]
      simp only [← Multiset.singleton_add]
      exact msum_shuffle t _ _ _ _ _ _ _ _ e1 e2 e3

theorem popForestAux_multiset : ∀ (f : TableForest),
    (((popForestAux f).1 : List Table) : Multiset Table)
      + ((popForestAux f).2 : Multiset Table)
      = ((forestTerminals f : List Table) : Multiset Table)
  | .nil => by simp [popForestAux, forestTerminals]
  | .cons (.mk hn .nil) t => by
    have iht := popForestAux_multiset t
    rw [popForestAux_cons_none _ _ (popOuterLeaves_mk_nil hn)]
    rw [forestTerminals, terminalTables_mk_nil]
    simp only [← Multiset.cons_coe, ← Multiset.coe_add, List.singleton_append]
    rw [← iht]
    simp only [← Multiset.singleton_add, TableNode.node]
    abel
  | .cons (.mk hn (.cons h2 t2)) t => by
    have iht := popForestAux_multiset t
    have ihh := popForestAux_multiset (.cons h2 t2)
    rw [popForestAux_cons_some _ _ _ (popOuterLeaves_mk_cons hn h2 t2)]
    rw [forestTerminals, terminalTables_mk_cons]
    simp only [← Multiset.cons_coe, ← Multiset.coe_add]
    rw [← iht, ← ihh]
    abel

theorem popOuterLeaves_none_iff (n : Table) (ls : TableForest) :
    popOuterLeaves (.mk n ls) = none ↔ ls = .nil := by
  cases ls with
  | nil => simp [popOuterLeaves_mk_nil]
  | cons h t => simp [popOuterLeaves_mk_cons]

theorem popOuterLeaves_terminals (n : Table) (ls : TableForest) (h : ls ≠ .nil) :
    ∃ out, popOuterLeaves (.mk n ls) = some out ∧
      (out : Multiset Table) = ((forestTerminals ls : List Table) : Multiset Table) := by
  cases ls with
  | nil => exact absurd rfl h
  | cons a b =>
    refine ⟨(popForestAux (.cons a b)).1 ++ (popForestAux (.cons a b)).2,
      popOuterLeaves_mk_cons n a b, ?_⟩
    rw [← popForestAux_multiset (.cons a b)]
    rw [← Multiset.coe_add]

theorem forestTerminals_le_allNodes : ∀ (f : TableForest),
    ((forestTerminals f : List Table) : Multiset Table)
      ≤ ((forestAllNodes f : List Table) : Multiset Table)
  | .nil => le_refl _
  | .cons (.mk hn .nil) t => by
    have iht := forestTerminals_le_allNodes t
    rw [forestTerminals, terminalTables_mk_nil, forestAllNodes, allNodes,
      forestAllNodes]
    simp only [← Multiset.cons_coe, ← Multiset.coe_add, List.singleton_append,
      List.nil_append, ← Multiset.singleton_add]
    exact add_le_add (le_refl _) iht
  | .cons (.mk hn (.cons h2 t2)) t => by
    have iht := forestTerminals_le_allNodes t
    have ihh := forestTerminals_le_allNodes (.cons h2 t2)
    rw [forestTerminals, terminalTables_mk_cons, forestAllNodes, allNodes]
    simp only [← Multiset.cons_coe, ← Multiset.coe_add, ← Multiset.singleton_add]
    have hh : ((forestTerminals (TableForest.cons h2 t2) : List Table) : Multiset Table)
        ≤ {hn} + ((forestAllNodes (TableForest.cons h2 t2) : List Table) : Multiset Table) :=
      le_trans ihh (le_add_self)
    exact add_le_add hh iht

theorem mem_toList_allNodes_le : ∀ (f : TableForest) (tr : TableNode),
    tr ∈ f.toList →
    ((allNodes tr : List Table) : Multiset Table)
      ≤ ((forestAllNodes f : List Table) : Multiset Table)
  | .nil, tr, hm => by simp [TableForest.toList] at hm
  | .cons h t, tr, hm => by
    rw [TableForest.toList, List.mem_cons] at hm
    rw [forestAllNodes]
    simp only [← Multiset.coe_add]
    rcases hm with h1 | h2
    · subst h1
      exact Multiset.le_add_right _ _
    · exact le_trans (mem_toList_allNodes_le t tr h2) (Multiset.le_add_left _ _)

theorem mem_toList_node_mem : ∀ (f : TableForest) (tr : TableNode),
    tr ∈ f.toList → tr.node ∈ (f.toList).map TableNode.node := by
  intro f tr hm
  exact List.mem_map_of_mem TableNode.node hm

theorem into_trees_root (tables : List Table) (tr : TableNode)
    (hm : tr ∈ (into_trees tables).1.toList) : rootPred tr.node = true := by
  have hroots := clAuxF_roots
    (clMeasure (tables.filter rootPred) (tables.filter (fun t => !rootPred t)) + 1)
    (tables.filter rootPred) (tables.filter (fun t => !rootPred t)) (by omega)
  have : tr.node ∈ ((into_trees tables).1.toList).map TableNode.node :=
    List.mem_map_of_mem TableNode.node hm
  rw [into_trees] at this
  rw [hroots] at this
  exact List.of_mem_filter this

theorem into_trees_multiset (tables : List Table) :
    ((forestAllNodes (into_trees tables).1 : List Table) : Multiset Table)
      + ((into_trees tables).2 : Multiset Table)
      = (tables : Multiset Table) := by
  rw [into_trees]
  rw [clAuxF_multiset _ _ _ (by omega)]
  exact filter_partition_multiset rootPred tables

theorem get_base_flattenNode (t : TableNode) : get_base (flattenNode t) = t.node := by
  rw [flattenNode]
  cases popOuterLeaves t <;> rfl

theorem get_leaves_flattenNode (t : TableNode) (ls : List Table)
    (h : get_leaves (flattenNode t) = some ls) : popOuterLeaves t = some ls := by
  rw [flattenNode] at h
  cases hp : popOuterLeaves t with
  | none => rw [hp] at h; exact absurd h (by simp [get_leaves])
  | some out => rw [hp] at h; simp only [get_leaves, Option.some_inj] at h; rw [h]

/-- C1 counterexample: a table with no primary-key column satisfies the
spec's root condition, yet `into_trees` does not extract it as a tree root —
it is left in the remainder instead. -/
theorem C1_counterexample :
    specRoot noPkT = true ∧ rootPred noPkT = false ∧
    (into_trees [noPkT]).1 = .nil ∧ (into_trees [noPkT]).2 = [noPkT] :=
  ⟨rfl, rfl, rfl, rfl⟩

/-- C1 (amended): `into_trees` extracts as tree roots exactly the tables
whose first primary-key column exists and has an empty foreign-key list; a
table with no primary-key column is not classified as a root. -/
theorem C1_root_classification :
    (∀ tables : List Table,
      (((into_trees tables).1.toList).map TableNode.node) = tables.filter rootPred) ∧
    (∀ t : Table, rootPred t = true ↔
      ∃ c, t.columns.find? (fun c => c.primary_key) = some c ∧ c.foreign_keys = []) := by
  constructor
  · intro tables
    rw [into_trees]
    exact clAuxF_roots _ _ _ (by omega)
  · intro t
    cases hf : t.columns.find? (fun c => c.primary_key) with
    | none => simp [rootPred, hf]
    | some c => simp [rootPred, hf, List.isEmpty_iff]

/-- C3 counterexample: a table whose primary key references a nonexistent
table is an orphan; `from_vec` returns no definition at all for it (and has
no orphan channel in its return type), dropping it silently even though
`into_trees` computes the orphan list. -/
theorem C3_counterexample :
    from_vec [orphanT] = [] ∧ (into_trees [orphanT]).2 = [orphanT] :=
  ⟨rfl, rfl⟩

/-- C3 (amended): `into_trees` returns the leftover tables as its second
component and every input table is accounted for — the tables stored in the
returned trees together with the leftover list are, as a multiset, exactly
the input; `from_vec` however discards that leftover list. -/
theorem C3_orphan_accounting :
    ∀ tables : List Table,
      ((forestAllNodes (into_trees tables).1 : List Table) : Multiset Table)
        + ((into_trees tables).2 : Multiset Table) = (tables : Multiset Table) :=
  into_trees_multiset

/-- C4: `try_from_value` tests the float conversion first, and since
`as_f64` succeeds on every number, every numeric input becomes `Float`; in
particular the JSON integer literal 5 becomes `Float(5.0)`, not `Int(5)`. -/
theorem C4_numeric_float_first :
    (∀ n : JNumber, ∃ x, n.asF64 = some x ∧
      try_from_value (.number n) = .ok (some (.Float x))) ∧
    try_from_value (.number (.posInt 5)) = .ok (some (.Float (.num 5))) := by
  constructor
  · intro n
    cases n with
    | posInt m => exact ⟨.num m, rfl, rfl⟩
    | negInt m => exact ⟨.num m, rfl, rfl⟩
    | float x => exact ⟨x, rfl, rfl⟩
  · rfl

/-- C6: `try_from_value` maps null to no value, booleans and strings to
their matching variants, and rejects arrays and objects. -/
theorem C6_structured_inputs :
    try_from_value .null = .ok none ∧
    (∀ b, try_from_value (.bool b) = .ok (some (.Bool b))) ∧
    (∀ s, try_from_value (.string s) = .ok (some (.String s))) ∧
    (∀ xs, try_from_value (.array xs) = .error ()) ∧
    (∀ kvs, try_from_value (.object kvs) = .error ()) :=
  ⟨rfl, fun _ => rfl, fun _ => rfl, fun _ => rfl, fun _ => rfl⟩

/-- C10: `ColumnValue` equality is not reflexive — `Float(NaN)` is unequal
to itself — while every `Bool`, `Int`, `String` and non-NaN `Float` value
equals itself. -/
theorem C10_eq_not_reflexive :
    columnValueBeq (.Float .nan) (.Float .nan) = false ∧
    (∀ b, columnValueBeq (.Bool b) (.Bool b) = true) ∧
    (∀ i : ℤ, columnValueBeq (.Int i) (.Int i) = true) ∧
    (∀ s : String, columnValueBeq (.String s) (.String s) = true) ∧
    (∀ q : ℚ, columnValueBeq (.Float (.num q)) (.Float (.num q)) = true) := by
  refine ⟨rfl, fun b => ?_, fun i => ?_, fun s => ?_, fun q => ?_⟩
  · simp [columnValueBeq]
  · simp [columnValueBeq]
  · simp [columnValueBeq]
  · simp [columnValueBeq, F64.beq]


/-- C2: flattening a tree yields `Single(node)` when the node has no
children, and otherwise `Family(node, leaves)` where `leaves` is exactly
(as a multiset) the deepest descendants of each branch — the terminal
tables — so no intermediate node appears; for the chain root→mid→leaf the
whole pipeline produces `Family(root, [leaf])` with mid nowhere. -/
theorem C2_flatten_deepest :
    (∀ t : TableNode,
      (t.leaves = .nil → flattenNode t = .Single t.node) ∧
      (t.leaves ≠ .nil → ∃ ls, flattenNode t = .Family t.node ls ∧
        (ls : Multiset Table) =
          ((forestTerminals t.leaves : List Table) : Multiset Table))) ∧
    from_vec [rootT, midT, leafT] = [.Family rootT [leafT]] := by
  constructor
  · intro t
    cases t with
    | mk n ls =>
      simp only [TableNode.leaves, TableNode.node]
      constructor
      · intro h
        subst h
        rfl
      · intro h
        obtain ⟨out, hpop, hout⟩ := popOuterLeaves_terminals n ls h
        refine ⟨out, ?_, hout⟩
        rw [flattenNode, hpop]
        rfl
  · rfl

/-- Witness for C2 at concrete inputs: a childless node flattens to
`Single`, and the chain tree flattens to `Family(root, [leaf])`. -/
theorem C2_flatten_deepest_witness :
    flattenNode (.mk rootT .nil) = .Single rootT ∧
    (∃ ls, flattenNode chainNode = .Family rootT ls ∧
      (ls : Multiset Table) =
        ((forestTerminals chainNode.leaves : List Table) : Multiset Table)) := by
  constructor
  · exact (C2_flatten_deepest.1 (.mk rootT .nil)).1 rfl
  · exact (C2_flatten_deepest.1 chainNode).2 (by simp [chainNode, TableNode.leaves])


/-- C5: `try_from_str` on empty text yields no value for an optional
column, the empty string for a required String column, and error kind
`Empty` for any other required column; non-empty text that fails the
declared-type parse yields kind `ParseError`; and "42" on an Int column
yields `Some(Int(42))`. -/
theorem C5_text_parsing :
    ∀ column : TableColumn,
      (column.optional = true → try_from_str column "" = .ok none) ∧
      (column.optional = false → column.ty = .String →
        try_from_str column "" = .ok (some (.String ""))) ∧
      (column.optional = false → column.ty ≠ .String →
        try_from_str column "" = .error .Empty) ∧
      (∀ s, s ≠ "" → parseFailsAt column.ty s →
        try_from_str column s = .error .ParseError) ∧
      (column.ty = .Int → try_from_str column "42" = .ok (some (.Int 42))) := by
  intro column
  refine ⟨?_, ?_, ?_, ?_, ?_⟩
  · intro h
    simp [try_from_str, h]
  · intro h1 h2
    simp [try_from_str, h1, h2]
  · intro h1 h2
    simp [try_from_str, h1, h2]
  · intro s hs hf
    cases hty : column.ty with
    | Bool =>
      rw [hty] at hf
      simp only [parseFailsAt] at hf
      simp [try_from_str, hs, hty, hf]
    | Int =>
      rw [hty] at hf
      simp only [parseFailsAt] at hf
      simp [try_from_str, hs, hty, hf]
    | Float =>
      rw [hty] at hf
      simp only [parseFailsAt] at hf
      simp [try_from_str, hs, hty, hf]
    | String =>
      rw [hty] at hf
      simp only [parseFailsAt] at hf
  · intro h
    obtain ⟨nm, cty, opt, pk, fks, mp⟩ := column
    simp only at h
    subst h
    rfl

/-- Witness for C5 at concrete columns and texts. -/
theorem C5_text_parsing_witness :
    try_from_str optStrCol "" = .ok none ∧
    try_from_str reqStrCol "" = .ok (some (.String "")) ∧
    try_from_str (pkCol []) "" = .error .Empty ∧
    try_from_str (pkCol []) "abc" = .error .ParseError ∧
    try_from_str (pkCol []) "42" = .ok (some (.Int 42)) :=
  ⟨(C5_text_parsing optStrCol).1 rfl,
   (C5_text_parsing reqStrCol).2.1 rfl rfl,
   (C5_text_parsing (pkCol [])).2.2.1 rfl (by decide),
   (C5_text_parsing (pkCol [])).2.2.2.1 "abc" (by decide)
     (show parseI64 "abc" = none from rfl),
   (C5_text_parsing (pkCol [])).2.2.2.2 rfl⟩

/-- C7: every successful `Comp` serialization is the two-element array of
its fixed operator token and the operand encoding — the single encoded
value for the unary comparisons, the encoded sequence for `In`/`Nin`, the
two-element `[min, max]` array for `Between` — and the concrete filter with
`Between(Int(1), Int(5))` at column "id" serializes to the object mapping
"id" to `["range", [1, 5]]`. -/
theorem C7_comparison_encoding :
    (∀ (c : Comp ColumnValue) (j : JValue), serializeComp c = some j →
      ∃ operand, j = .array [.string c.operator, operand]) ∧
    (∀ v j, columnValueToJson v = some j →
      serializeComp (.Le v) = some (.array [.string "<", j]) ∧
      serializeComp (.Ge v) = some (.array [.string ">", j]) ∧
      serializeComp (.Leq v) = some (.array [.string "<=", j]) ∧
      serializeComp (.Geq v) = some (.array [.string ">=", j]) ∧
      serializeComp (.Eq v) = some (.array [.string "==", j]) ∧
      serializeComp (.Neq v) = some (.array [.string "!=", j])) ∧
    (∀ vs js, vs.mapM columnValueToJson = some js →
      serializeComp (.In vs) = some (.array [.string "in", .array js]) ∧
      serializeComp (.Nin vs) = some (.array [.string "not_in", .array js])) ∧
    (∀ a b ja jb, columnValueToJson a = some ja → columnValueToJson b = some jb →
      serializeComp (.Between a b) =
        some (.array [.string "range", .array [ja, jb]])) ∧
    serializeFilter (ApiFilter.new.insert "id" (.Between (.Int 1) (.Int 5))) =
      some (.object [("id", .array [.string "range",
        .array [.number (.posInt 1), .number (.posInt 5)]])]) := by
  refine ⟨?_, ?_, ?_, ?_, rfl⟩
  · intro c j h
    rw [serializeComp.eq_def] at h
    rcases Option.map_eq_some'.mp h with ⟨w, _, hw⟩
    exact ⟨w, hw.symm⟩
  · intro v j h
    refine ⟨?_, ?_, ?_, ?_, ?_, ?_⟩ <;> simp [serializeComp, h, Comp.operator]
  · intro vs js h
    constructor <;> (simp only [serializeComp, Comp.operator]; rw [h]; rfl)
  · intro a b ja jb ha hb
    simp [serializeComp, ha, hb, Comp.operator]

/-- Witness for C7 at concrete comparisons. -/
theorem C7_comparison_encoding_witness :
    serializeComp (.Eq (.Int 3)) =
      some (.array [.string "==", .number (.posInt 3)]) ∧
    serializeComp (.In [.String "a", .String "b"]) =
      some (.array [.string "in", .array [.string "a", .string "b"]]) ∧
    serializeComp (.Between (.Int 1) (.Int 5)) =
      some (.array [.string "range",
        .array [.number (.posInt 1), .number (.posInt 5)]]) :=
  ⟨(C7_comparison_encoding.2.1 (.Int 3) (.number (.posInt 3)) rfl).2.2.2.2.1,
   (C7_comparison_encoding.2.2.1 [.String "a", .String "b"]
     [.string "a", .string "b"] rfl).1,
   C7_comparison_encoding.2.2.2.1 (.Int 1) (.Int 5)
     (.number (.posInt 1)) (.number (.posInt 5)) rfl rfl⟩

/-- C8: `TableDefinition::get` returns the base when the identifier equals
the base's identifier; otherwise a leaf whose identifier matches, when one
exists; and nothing when neither the base nor any leaf matches. -/
theorem C8_lookup :
    ∀ (d : TableDefinition) (table_name : String),
      ((get_base d).table = table_name → d.get table_name = some (get_base d)) ∧
      ((get_base d).table ≠ table_name →
        ∀ ls, get_leaves d = some ls →
          (∃ l ∈ ls, l.table = table_name) →
            ∃ l, d.get table_name = some l ∧ l ∈ ls ∧ l.table = table_name) ∧
      ((get_base d).table ≠ table_name ∧
        (∀ ls, get_leaves d = some ls → ∀ l ∈ ls, l.table ≠ table_name) →
        d.get table_name = none) := by
  intro d table_name
  refine ⟨?_, ?_, ?_⟩
  · intro h
    simp [TableDefinition.get, h]
  · intro h ls hls hex
    have hsome : (ls.find? (fun t => t.table == table_name)).isSome := by
      rw [List.find?_isSome]
      obtain ⟨l, hl, hlt⟩ := hex
      exact ⟨l, hl, by simp [hlt]⟩
    cases hfind : ls.find? (fun t => t.table == table_name) with
    | none => rw [hfind] at hsome; simp at hsome
    | some w =>
      refine ⟨w, ?_, List.mem_of_find?_eq_some hfind, ?_⟩
      · simp [TableDefinition.get, h, hls, hfind]
      · have := List.find?_some hfind
        simpa using this
  · rintro ⟨h, hnone⟩
    simp only [TableDefinition.get, beq_iff_eq]
    rw [if_neg h]
    cases hls : get_leaves d with
    | none => rfl
    | some ls =>
      simp only [Option.some_bind]
      rw [List.find?_eq_none]
      intro l hl
      simpa using hnone ls hls l hl

/-- Witness for C8 on the definition `Family(root, [leaf])`. -/
theorem C8_lookup_witness :
    (TableDefinition.Family rootT [leafT]).get "root" = some rootT ∧
    (∃ l, (TableDefinition.Family rootT [leafT]).get "leaf" = some l ∧
      l ∈ [leafT] ∧ l.table = "leaf") ∧
    (TableDefinition.Family rootT [leafT]).get "zzz" = none := by
  refine ⟨(C8_lookup (.Family rootT [leafT]) "root").1 rfl,
    (C8_lookup (.Family rootT [leafT]) "leaf").2.1 (by decide) [leafT] rfl
      ⟨leafT, by simp, rfl⟩,
    (C8_lookup (.Family rootT [leafT]) "zzz").2.2 ⟨by decide, ?_⟩⟩
  intro ls hls l hl
  simp only [get_leaves, Option.some_inj] at hls
  subst hls
  simp only [List.mem_singleton] at hl
  subst hl
  decide

/-- C9: for every input whose table identifiers are pairwise distinct,
every `TableDefinition` produced by `from_vec` has a base that is a root
table (its primary-key column, when present, has no foreign keys), and
leaves pairwise distinct by identifier and distinct from the base. -/
theorem C9_definition_invariant :
    ∀ tables : List Table, (tables.map (fun t => t.table)).Nodup →
      ∀ d ∈ from_vec tables,
        (match (get_base d).columns.find? (fun c => c.primary_key) with
          | some c => c.foreign_keys = []
          | none => True) ∧
        (∀ ls, get_leaves d = some ls →
          (ls.map (fun t => t.table)).Nodup ∧
          (get_base d).table ∉ ls.map (fun t => t.table)) := by
  intro tables hnd d hd
  rw [from_vec] at hd
  rcases List.mem_map.mp hd with ⟨tr, htr, rfl⟩
  have hroot : rootPred tr.node = true := into_trees_root tables tr htr
  have hle : ((allNodes tr : List Table) : Multiset Table) ≤ ↑tables :=
    le_trans (mem_toList_allNodes_le _ _ htr)
      (Multiset.le_iff_exists_add.mpr ⟨_, (into_trees_multiset tables).symm⟩)
  constructor
  · rw [get_base_flattenNode]
    cases hf : tr.node.columns.find? (fun c => c.primary_key) with
    | none => trivial
    | some c =>
      simp only [rootPred, hf] at hroot
      exact List.isEmpty_iff.mp hroot
  · intro ls hls
    have hpop : popOuterLeaves tr = some ls := get_leaves_flattenNode tr ls hls
    cases tr with
    | mk n f =>
      cases f with
      | nil => rw [popOuterLeaves_mk_nil] at hpop; exact absurd hpop (by simp)
      | cons a b =>
        obtain ⟨out, hpop2, hout⟩ :=
          popOuterLeaves_terminals n (.cons a b) (by simp)
        rw [hpop] at hpop2
        have hlsout : ls = out := Option.some_inj.mp hpop2
        subst hlsout
        have h2 : (((allNodes (TableNode.mk n (.cons a b))).map
            (fun t => t.table) : List String) : Multiset String)
            ≤ ↑(tables.map (fun t => t.table)) := by
          rw [← Multiset.map_coe, ← Multiset.map_coe]
          exact Multiset.map_le_map hle
        have h3 : ((allNodes (TableNode.mk n (.cons a b))).map
            (fun t => t.table)).Nodup := by
          rw [← Multiset.coe_nodup]
          exact Multiset.nodup_of_le h2 (Multiset.coe_nodup.mpr hnd)
        rw [allNodes, List.map_cons, List.nodup_cons] at h3
        obtain ⟨hnotin, hnodup⟩ := h3
        have h4 : (ls : Multiset Table) ≤ ↑(forestAllNodes (.cons a b)) := by
          rw [hout]
          exact forestTerminals_le_allNodes _
        have h5 : ((ls.map (fun t => t.table) : List String) : Multiset String)
            ≤ ↑((forestAllNodes (.cons a b)).map (fun t => t.table)) := by
          rw [← Multiset.map_coe, ← Multiset.map_coe]
          exact Multiset.map_le_map h4
        constructor
        · rw [← Multiset.coe_nodup]
          exact Multiset.nodup_of_le h5 (Multiset.coe_nodup.mpr hnodup)
        · rw [get_base_flattenNode]
          intro hmem
          apply hnotin
          have : (TableNode.mk n (TableForest.cons a b)).node.table ∈
              ((forestAllNodes (.cons a b)).map (fun t => t.table) : Multiset String) :=
            Multiset.mem_of_le h5 (Multiset.mem_coe.mpr hmem)
          simpa [TableNode.node] using this

/-- Witness for C9 on the chain input `[rootT, midT, leafT]`. -/
theorem C9_definition_invariant_witness :
    (match (get_base (TableDefinition.Family rootT [leafT])).columns.find?
        (fun c => c.primary_key) with
      | some c => c.foreign_keys = []
      | none => True) ∧
    (∀ ls, get_leaves (TableDefinition.Family rootT [leafT]) = some ls →
      (ls.map (fun t => t.table)).Nodup ∧
      (get_base (TableDefinition.Family rootT [leafT])).table ∉
        ls.map (fun t => t.table)) :=
  C9_definition_invariant [rootT, midT, leafT] (by decide)
    (TableDefinition.Family rootT [leafT]) (List.mem_singleton.mpr rfl)
